import Mathlib

/-!
# Vibe Clock — verification development

The repository renders a 3D clock above a Tessendorf-style FFT ocean.
The clock glue code is present in the sources (`clock.ts`,
`clockMaterial.ts`) and is embedded directly below.  The ocean pipeline
(spectrum initialization, time evolution, GPU FFT, field post-processing)
is described by the specification but its implementation files are not
part of the provided sources; those operations are modelled from the
specification text, and each such definition is marked accordingly.
-/

/-! ## Clock digit meshes (embedded from clock.ts) -/

/-- A created digit mesh: the character it displays and a fresh identifier
standing for the identity of the engine mesh object. -/
structure DigitMesh where
  c : Char
  id : ℕ
deriving DecidableEq

/-- The mutable state of the `Clock` class.  `font` and `textBuilder`
model the nullable fields `this.font` / `this.textBuilder` (`true` =
non-null); `digitMeshes` is the five-slot array of digit meshes;
`nextMeshId` is a fresh-name supply for newly created meshes and
`disposed` records the ids of meshes on which `dispose()` was called. -/
structure ClockState where
  isReady : Bool
  font : Bool
  textBuilder : Bool
  currentTimeString : String
  lastUpdateTime : ℤ
  digitMeshes : List (Option DigitMesh)
  nextMeshId : ℕ
  disposed : List ℕ
deriving DecidableEq

/-- The state constructed by the `Clock` constructor: nothing loaded yet,
empty time string, five empty mesh slots. -/
def clockInitState : ClockState :=
  { isReady := false
    font := false
    textBuilder := false
    currentTimeString := ""
    lastUpdateTime := 0
    digitMeshes := [none, none, none, none, none]
    nextMeshId := 0
    disposed := [] }

/-- The method `Clock.createTextMesh`: returns null unless `textBuilder`, `font` and
`isReady` are all set; otherwise creates a fresh mesh for the character.
(The geometry options passed to the text builder are not modelled; a
successful build is represented by a fresh mesh identity.) -/
def createTextMesh (text : Char) (s : ClockState) : Option DigitMesh × ClockState :=
  if s.textBuilder && s.font && s.isReady then
    (some ⟨text, s.nextMeshId⟩, { s with nextMeshId := s.nextMeshId + 1 })
  else
    (none, s)

/-- The method `Clock.updateDigitMesh`: dispose the old mesh at `position` if there is
one, then create a new mesh for `char` and store it if creation succeeded. -/
def updateDigitMesh (position : ℕ) (char : Char) (s : ClockState) : ClockState :=
  let s1 :=
    match s.digitMeshes.getD position none with
    | some m =>
        { s with
          digitMeshes := s.digitMeshes.set position none
          disposed := m.id :: s.disposed }
    | none => s
  let r := createTextMesh char s1
  match r.1 with
  | some m => { r.2 with digitMeshes := r.2.digitMeshes.set position (some m) }
  | none => r.2

/-- The call `n.toString().padStart(2, c)` for the hour/minute numbers: a natural
number below 10 prints as one digit and is padded to two. -/
def padTwo (n : ℕ) : String :=
  if n < 10 then "0" ++ toString n else toString n

/-- Indexing `str[i]` on a JavaScript string, as used on the two-character
hour/minute strings. -/
def charAt (str : String) (i : ℕ) : Char :=
  str.toList.getD i ' '

/-- The `HH:MM` string built in `Clock.updateTime`. -/
def fmtTime (hours minutes : ℕ) : String :=
  padTwo hours ++ ":" ++ padTwo minutes

/-- The method `Clock.updateTime`, with the ambient browser clock passed in as data:
`now` is `Date.now()` (milliseconds) and `hours`/`minutes` are
`date.getHours()` / `date.getMinutes()`.  Returns without changes when the
font system is not ready or when less than 1000 ms have passed since the
last accepted update; then records the update time, and rebuilds the five
digit meshes only when the formatted time string changed.
(`positionDigits` only assigns mesh transforms, which are not part of the
modelled state.) -/
def updateTime (now : ℤ) (hours minutes : ℕ) (s : ClockState) : ClockState :=
  if s.isReady = false then s
  else if now - s.lastUpdateTime < 1000 then s
  else
    let s1 := { s with lastUpdateTime := now }
    let hoursStr := padTwo hours
    let minutesStr := padTwo minutes
    let timeString := hoursStr ++ ":" ++ minutesStr
    if timeString = s1.currentTimeString then s1
    else
      let s2 := { s1 with currentTimeString := timeString }
      let s3 := updateDigitMesh 0 (charAt hoursStr 0) s2
      let s4 := updateDigitMesh 1 (charAt hoursStr 1) s3
      let s5 := updateDigitMesh 2 ':' s4
      let s6 := updateDigitMesh 3 (charAt minutesStr 0) s5
      let s7 := updateDigitMesh 4 (charAt minutesStr 1) s6
      s7

/-- The method `Clock.initializeFont` seen at its completion: on success it installs
the compiler, font and text builder, sets `isReady` and immediately calls
`updateTime`; on failure it only logs and leaves the state unchanged. -/
def initFontStep (success : Bool) (now : ℤ) (hours minutes : ℕ) (s : ClockState) : ClockState :=
  if success then
    updateTime now hours minutes { s with font := true, textBuilder := true, isReady := true }
  else s

/-! ## Clock material (embedded from clockMaterial.ts) -/

/-- The interface `MaterialConfig` from clockMaterial.ts.  Optional numeric fields are
`Option ℚ` (with `none` for `undefined`); the optional roughness/normal
texture imports are represented by presence flags. -/
structure MaterialConfig where
  hasRoughnessTexture : Bool
  hasNormalTexture : Bool
  metallic : Option ℚ
  roughness : Option ℚ
  emissive : Option (ℚ × ℚ × ℚ)
  textureScale : Option ℚ
deriving DecidableEq

/-- The observable result of the `ClockMaterial` constructor: the scalar
material properties and the UV scales applied to each loaded texture. -/
structure MaterialState where
  metallic : ℚ
  roughness : ℚ
  baseUScale : ℚ
  baseVScale : ℚ
  roughScale : Option ℚ
  normalScale : Option ℚ
  emissiveColor : Option (ℚ × ℚ × ℚ)
deriving DecidableEq

/-- JavaScript `v || d` on an optional number: `undefined` and `0` are
falsy and yield the default. -/
def jsOrDefault (v : Option ℚ) (d : ℚ) : ℚ :=
  match v with
  | none => d
  | some x => if x = 0 then d else x

/-- The `ClockMaterial` constructor:
`scale = config.textureScale || 1.0`,
`metallic = config.metallic !== undefined ? config.metallic : 1.0`,
`roughness = config.roughness !== undefined ? config.roughness : 0.5`;
the scale is applied to the base texture and to the roughness/normal
textures when they were provided. -/
def mkClockMaterial (config : MaterialConfig) : MaterialState :=
  let scale := jsOrDefault config.textureScale 1
  { metallic := match config.metallic with | some x => x | none => 1
    roughness := match config.roughness with | some x => x | none => 1/2
    baseUScale := scale
    baseVScale := scale
    roughScale := if config.hasRoughnessTexture then some scale else none
    normalScale := if config.hasNormalTexture then some scale else none
    emissiveColor := config.emissive }

/-! ## Ocean pipeline configuration (modelled from the spec)

The ocean implementation files are not in the provided sources; the
following definitions are modelled from the specification text. -/

/-- Power-of-two test, written with explicit structural fuel so that it
evaluates inside the kernel. -/
def isPowTwoAux : ℕ → ℕ → Bool
  | 0, _ => false
  | _ + 1, 0 => false
  | _ + 1, 1 => true
  | fuel + 1, n + 2 => (n + 2) % 2 == 0 && isPowTwoAux fuel ((n + 2) / 2)

/-- The test `isPowTwo n` decides whether `n` is a power of two. -/
def isPowTwo (n : ℕ) : Bool := isPowTwoAux n n

/-- Modelled from the spec: the configuration parameters of the ocean
pipeline (grid size, patch size in meters, wind, amplitude scale,
choppiness).  Rational numbers stand for the finite floating-point
values a configuration can hold. -/
structure OceanConfig where
  gridSize : ℕ
  patchSize : ℚ
  windSpeed : ℚ
  amplitude : ℚ
  choppiness : ℚ
deriving DecidableEq

/-- Modelled from the spec: a configuration is valid when the grid size is
a power of two and the patch size is positive. -/
def validConfig (c : OceanConfig) : Bool :=
  isPowTwo c.gridSize && decide (0 < c.patchSize)

/-- Modelled from the spec: the pipeline has exactly two states,
Uninitialized and Running. -/
inductive PipelineState where
  | uninit : PipelineState
  | running : OceanConfig → PipelineState
deriving DecidableEq

/-- Modelled from the spec: pipeline initialization.  An invalid
configuration is rejected with a diagnostic before any spectrum
computation and the state is left untouched; a valid one transitions to
Running. -/
def initPipeline (c : OceanConfig) (s : PipelineState) : PipelineState × Option String :=
  if validConfig c then (PipelineState.running c, none)
  else (s, some "configuration error")

/-! ## Seeded pseudo-random generator (modelled from the spec) -/

/-- Modelled from the spec: one step of an explicit seeded pseudo-random
generator (a 32-bit linear congruential step). -/
def rngStep (s : ℕ) : ℕ := (1664525 * s + 1013904223) % 4294967296

/-- The generator state after `i` sequential draws from `seed`, as the
stateful initialization loop threads it. -/
def seqStates (seed : ℕ) : ℕ → ℕ
  | 0 => seed
  | i + 1 => rngStep (seqStates seed i)

/-- Row-major cell index of grid cell `(n, m)`. -/
def cellIndex (gridSize n m : ℕ) : ℕ := n * gridSize + m

/-! ## Field post-processor values (modelled from the spec)

Single-precision floating-point values flowing out of the FFT stage can
be finite, infinite or NaN; the post-processor must clamp them into a
bounded range before they reach the shader. -/

/-- A floating-point value as seen by the post-processor: finite (with a
rational payload), one of the two infinities, or NaN. -/
inductive FVal where
  | fin : ℚ → FVal
  | pinf : FVal
  | ninf : FVal
  | nan : FVal
deriving DecidableEq

/-- IEEE-style scaling of a value by a finite constant (used for the
choppiness scaling of the horizontal displacement). -/
def fvScale (c : ℚ) : FVal → FVal
  | .fin x => .fin (c * x)
  | .pinf => if 0 < c then .pinf else if c < 0 then .ninf else .nan
  | .ninf => if 0 < c then .ninf else if c < 0 then .pinf else .nan
  | .nan => .nan

/-- Clamp a finite value into `[lo, hi]`. -/
def clampQ (lo hi x : ℚ) : ℚ := min hi (max lo x)

/-- Modelled from the spec: the post-processor sanitizes every sample
before writing it to a texture — finite values are clamped into
`[lo, hi]`, infinities saturate at the respective bound, and NaN is
replaced by a clamped zero.  The result is always an ordinary number. -/
def sanitize (lo hi : ℚ) : FVal → ℚ
  | .fin x => clampQ lo hi x
  | .pinf => hi
  | .ninf => lo
  | .nan => clampQ lo hi 0

/-- Modelled from the spec: one texel of the displacement texture —
choppiness-scaled horizontal offsets around the height, each channel
sanitized. -/
def displacementTexel (lo hi lam : ℚ) (height dispX dispZ : FVal) : ℚ × ℚ × ℚ :=
  (sanitize lo hi (fvScale lam dispX),
   sanitize lo hi height,
   sanitize lo hi (fvScale lam dispZ))

/-- Modelled from the spec: one texel of the normal texture, rebuilt from
the slope samples as `(-slopeX, 1, -slopeZ)`, each channel sanitized. -/
def normalTexel (lo hi : ℚ) (slopeX slopeZ : FVal) : ℚ × ℚ × ℚ :=
  (sanitize lo hi (fvScale (-1) slopeX),
   sanitize lo hi (.fin 1),
   sanitize lo hi (fvScale (-1) slopeZ))

/-! ## Ocean spectrum and time evolution (modelled from the spec) -/

/-- Modelled from the spec: the physical and statistical parameters of the
wave field.  `kEpsilon` is the small epsilon below which a wavevector
magnitude is treated as zero. -/
structure OceanParams where
  gridSize : ℕ
  patchSize : ℝ
  windX : ℝ
  windZ : ℝ
  windSpeed : ℝ
  amplitude : ℝ
  choppiness : ℝ
  kEpsilon : ℝ

/-- One wavevector coordinate: `2π n / L` for lattice coordinate `n`. -/
noncomputable def kCoord (p : OceanParams) (n : ℤ) : ℝ :=
  2 * Real.pi * n / p.patchSize

/-- Magnitude of the wavevector of cell `(n, m)`. -/
noncomputable def kMag (p : OceanParams) (n m : ℤ) : ℝ :=
  Real.sqrt (kCoord p n ^ 2 + kCoord p m ^ 2)

/-- Modelled from the spec: the largest-wave length scale `L_wind = V²/g`
entering the Phillips spectrum. -/
noncomputable def windScale (p : OceanParams) : ℝ :=
  p.windSpeed ^ 2 / 9.81

/-- Modelled from the spec: the Phillips spectrum
`P(k) = A · e^(-1/(k·L_wind)²) / k⁴ · (k̂·ŵ)²`, zeroed when the
wavevector magnitude is below `kEpsilon`. -/
noncomputable def phillips (p : OceanParams) (n m : ℤ) : ℝ :=
  if kMag p n m < p.kEpsilon then 0
  else
    p.amplitude * Real.exp (-1 / (kMag p n m * windScale p) ^ 2) / kMag p n m ^ 4 *
      ((kCoord p n * p.windX + kCoord p m * p.windZ) / kMag p n m) ^ 2

/-- Modelled from the spec: base complex amplitude of cell `(n, m)`,
`(ξr + i·ξi) · sqrt(P(k)/2)` where `(ξr, ξi)` is the cell's Gaussian
draw.  Because the Phillips spectrum is zeroed near `k = 0`, the `k = 0`
cell has amplitude exactly zero. -/
noncomputable def h0 (p : OceanParams) (gauss : ℤ → ℤ → ℝ × ℝ) (n m : ℤ) : ℂ :=
  (((gauss n m).1 : ℂ) + ((gauss n m).2 : ℂ) * Complex.I) *
    ((Real.sqrt (phillips p n m / 2) : ℝ) : ℂ)

/-- Modelled from the spec: the deep-water dispersion relation
`ω = sqrt(9.81 · |k|)`. -/
noncomputable def dispersion (p : OceanParams) (n m : ℤ) : ℝ :=
  Real.sqrt (9.81 * kMag p n m)

/-- Modelled from the spec: the evolved frequency-domain height amplitude
`h̃(k,t) = h̃₀(k)·e^(iωt) + conj(h̃₀(−k))·e^(−iωt)`. -/
noncomputable def evolveCell (p : OceanParams) (gauss : ℤ → ℤ → ℝ × ℝ) (t : ℝ)
    (n m : ℤ) : ℂ :=
  h0 p gauss n m * Complex.exp (Complex.I * ((dispersion p n m * t : ℝ) : ℂ)) +
    (starRingEnd ℂ) (h0 p gauss (-n) (-m)) *
      Complex.exp (-(Complex.I * ((dispersion p n m * t : ℝ) : ℂ)))

/-- The N×N base spectrum buffer produced by spectrum initialization. -/
noncomputable def initSpectrum (p : OceanParams) (gauss : ℤ → ℤ → ℝ × ℝ) :
    Fin p.gridSize → Fin p.gridSize → ℂ :=
  fun i j => h0 p gauss (i : ℤ) (j : ℤ)

/-- The per-frame frequency-domain height buffer at simulation time `t`. -/
noncomputable def evolveGrid (p : OceanParams) (gauss : ℤ → ℤ → ℝ × ℝ) (t : ℝ) :
    Fin p.gridSize → Fin p.gridSize → ℂ :=
  fun i j => evolveCell p gauss t (i : ℤ) (j : ℤ)

/-- Modelled from the spec: reproducible Gaussian pair for a cell index —
two successive draws of the seeded stream pushed through a Box–Muller
transform. -/
noncomputable def gaussOfNats (a b : ℕ) : ℝ × ℝ :=
  let u1 : ℝ := (a + 1) / 4294967296
  let u2 : ℝ := b / 4294967296
  let r := Real.sqrt (-2 * Real.log u1)
  (r * Real.cos (2 * Real.pi * u2), r * Real.sin (2 * Real.pi * u2))

/-- The Gaussian pair drawn for cell index `idx` from `seed`. -/
noncomputable def seededGauss (seed idx : ℕ) : ℝ × ℝ :=
  gaussOfNats (seqStates seed (2 * idx + 1)) (seqStates seed (2 * idx + 2))

/-- Spectrum initialization from a seed: every cell's draw is a pure
function of the seed and the cell index. -/
noncomputable def initSeeded (p : OceanParams) (seed : ℕ) :
    Fin p.gridSize → Fin p.gridSize → ℂ :=
  initSpectrum p fun n m => seededGauss seed (cellIndex p.gridSize n.natAbs m.natAbs)

/-! ## GPU FFT engine (modelled from the spec)

The engine runs `log2 N` butterfly passes per dimension — rows first,
then columns — over an `N = 2^k` grid whose input is read in
bit-reversed order, and finishes with the `(−1)^(n+m)` sign correction.
Buffers are total functions on `ℕ`; the engine only reads and writes
indices below `N`. -/

/-- A twiddle factor: the complex root of unity `e^(2πi·j/len)` (inverse
transform convention). -/
noncomputable def twiddle (len j : ℕ) : ℂ :=
  Complex.exp (2 * Real.pi * Complex.I * (j : ℂ) / (len : ℂ))

/-- One butterfly pass at stage `s ≥ 1`: samples are combined in pairs a
half-block `2^(s-1)` apart inside blocks of `2^s`, using the stage's
twiddle factors. -/
noncomputable def butterflyPass (s : ℕ) (x : ℕ → ℂ) : ℕ → ℂ := fun i =>
  let pos := i % 2 ^ s
  if pos < 2 ^ (s - 1) then
    x i + twiddle (2 ^ s) pos * x (i + 2 ^ (s - 1))
  else
    x (i - 2 ^ (s - 1)) - twiddle (2 ^ s) (pos - 2 ^ (s - 1)) * x i

/-- Bit reversal of a `k`-bit index: the high half of the position space
selects the low input bit (the decimation-in-time input ordering). -/
def bitRev : ℕ → ℕ → ℕ
  | 0, _ => 0
  | k + 1, i => if i < 2 ^ k then 2 * bitRev k i else 2 * bitRev k (i - 2 ^ k) + 1

/-- The per-dimension dispatch sequence: stages `1, …, k`. -/
noncomputable def stageList (k : ℕ) : List ((ℕ → ℂ) → (ℕ → ℂ)) :=
  (List.range k).map fun j => butterflyPass (j + 1)

/-- Apply a dispatch sequence in order. -/
def applyList {α : Type} (l : List (α → α)) (x : α) : α :=
  l.foldl (fun acc f => f acc) x

/-- The 1D inverse butterfly network on `2^k` points: bit-reversed input
ordering followed by the `k` butterfly passes. -/
noncomputable def ifft1D (k : ℕ) (x : ℕ → ℂ) : ℕ → ℂ :=
  applyList (stageList k) (fun i => x (bitRev k i))

/-- A frequency-domain or spatial-domain buffer of the 2D engine. -/
def Mat : Type := ℕ → ℕ → ℂ

/-- Lift a 1D pass to a row pass: one parallel dispatch applying the pass
to every row. -/
def liftRow (f : (ℕ → ℂ) → (ℕ → ℂ)) : Mat → Mat :=
  fun M n => f (M n)

/-- Lift a 1D pass to a column pass: one parallel dispatch applying the
pass to every column. -/
def liftCol (f : (ℕ → ℂ) → (ℕ → ℂ)) : Mat → Mat :=
  fun M n m => f (fun r => M r m) n

/-- The row-pass dispatches of the 2D engine. -/
noncomputable def rowStages (k : ℕ) : List (Mat → Mat) :=
  (stageList k).map liftRow

/-- The column-pass dispatches of the 2D engine. -/
noncomputable def colStages (k : ℕ) : List (Mat → Mat) :=
  (stageList k).map liftCol

/-- The full dispatch sequence of one 2D inverse transform: all row
passes, then all column passes. -/
noncomputable def fftDispatches (k : ℕ) : List (Mat → Mat) :=
  rowStages k ++ colStages k

/-- Modelled from the spec: the 2D inverse FFT on an `N = 2^k` grid —
bit-reversed input ordering per row, the row passes, bit-reversed
ordering per column, the column passes, and finally the `(−1)^(n+m)`
sign-alternation correction on every output cell. -/
noncomputable def ifft2D (k : ℕ) (M : Mat) : Mat :=
  let rowsIn : Mat := fun n m => M n (bitRev k m)
  let rowsOut := applyList (rowStages k) rowsIn
  let colsIn : Mat := fun n m => rowsOut (bitRev k n) m
  let colsOut := applyList (colStages k) colsIn
  fun n m => (-1 : ℂ) ^ (n + m) * colsOut n m

/-- The unnormalized 1D inverse discrete Fourier transform on `N` points
(the spec folds all normalization into the spectrum amplitude). -/
noncomputable def idft (N : ℕ) (x : ℕ → ℂ) : ℕ → ℂ := fun j =>
  ∑ n ∈ Finset.range N, x n * Complex.exp (2 * Real.pi * Complex.I * (n * j : ℕ) / (N : ℂ))

/-! ## Concrete instances used by the witnesses -/

/-- A degenerate deterministic draw assigning every cell the pair `(1, 0)`. -/
def gaussOne : ℤ → ℤ → ℝ × ℝ := fun _ _ => ((1 : ℝ), (0 : ℝ))

/-- Concrete valid ocean parameters: `N = 16`, patch 10 m, wind `(1,0)` at
speed 5, amplitude 1, choppiness 1, wavevector epsilon `1/1000`. -/
noncomputable def oceanPEx : OceanParams :=
  ⟨16, 10, 1, 0, 5, 1, 1, 1/1000⟩

/-- The time at which the phase of cell `(1,0)` of `oceanPEx` has advanced
by a quarter turn. -/
noncomputable def tStarEx : ℝ := Real.pi / (2 * dispersion oceanPEx 1 0)

/-- A clock state after a successful font load currently showing 12:34. -/
def clockReadyEx : ClockState :=
  { isReady := true
    font := true
    textBuilder := true
    currentTimeString := "12:34"
    lastUpdateTime := 0
    digitMeshes := [none, none, none, none, none]
    nextMeshId := 0
    disposed := [] }

/-- A concrete material configuration: metallic left undefined, roughness
3/10, an explicit texture scale of 0. -/
def cfgEx : MaterialConfig :=
  ⟨true, true, none, some (3/10), none, some 0⟩

/-! ## Helper lemmas -/

/-- Sanitized samples always land in the clamping range. -/
theorem sanitize_bounds (lo hi : ℚ) (hlh : lo ≤ hi) (v : FVal) :
    lo ≤ sanitize lo hi v ∧ sanitize lo hi v ≤ hi := by
  cases v with
  | fin x =>
      exact ⟨le_min hlh (le_max_left _ _), min_le_left _ _⟩
  | pinf => exact ⟨hlh, le_refl hi⟩
  | ninf => exact ⟨le_refl lo, hlh⟩
  | nan => exact ⟨le_min hlh (le_max_left _ _), min_le_left _ _⟩

/-- Sanitizing a finite in-range value returns it unchanged. -/
theorem sanitize_fin_of_mem (lo hi x : ℚ) (h1 : lo ≤ x) (h2 : x ≤ hi) :
    sanitize lo hi (FVal.fin x) = x := by
  show min hi (max lo x) = x
  rw [max_eq_right h1, min_eq_right h2]

/-- The formatted time string is never the empty string. -/
theorem fmtTime_ne_empty (hours minutes : ℕ) : fmtTime hours minutes ≠ "" := by
  intro h
  have hlen : (fmtTime hours minutes).length =
      (padTwo hours).length + 1 + (padTwo minutes).length := by
    simp [fmtTime, String.length_append]
    rfl
  rw [h] at hlen
  simp at hlen
  omega

/-! ## C1 — time evolution formula -/

/-- C1: every cell of the per-frame frequency-domain buffer is
`h̃₀(k)·e^(iωt) + conj(h̃₀(−k))·e^(−iωt)` with dispersion frequency
`ω = sqrt(9.81·|k|)`. -/
theorem C1_time_evolution (p : OceanParams) (gauss : ℤ → ℤ → ℝ × ℝ) (t : ℝ)
    (i j : Fin p.gridSize) :
    evolveGrid p gauss t i j =
      h0 p gauss (i : ℤ) (j : ℤ) *
          Complex.exp (Complex.I * ((dispersion p (i : ℤ) (j : ℤ) * t : ℝ) : ℂ)) +
        (starRingEnd ℂ) (h0 p gauss (-(i : ℤ)) (-(j : ℤ))) *
          Complex.exp (-(Complex.I * ((dispersion p (i : ℤ) (j : ℤ) * t : ℝ) : ℂ))) ∧
    dispersion p (i : ℤ) (j : ℤ) = Real.sqrt (9.81 * kMag p (i : ℤ) (j : ℤ)) :=
  ⟨rfl, rfl⟩

/-! ## C3 — configuration errors are rejected -/

/-- C3: an invalid configuration (grid size not a power of two, or patch
size ≤ 0) is rejected with a diagnostic and the pipeline state is left
exactly as it was — in particular Uninitialized stays Uninitialized. -/
theorem C3_config_rejected (c : OceanConfig) (s : PipelineState)
    (h : isPowTwo c.gridSize = false ∨ c.patchSize ≤ 0) :
    initPipeline c s = (s, some "configuration error") := by
  have hv : validConfig c = false := by
    rcases h with h | h
    · simp [validConfig, h]
    · simp [validConfig, not_lt.mpr h]
  simp [initPipeline, hv]

/-- Witness for C3 at the concrete configuration `N = 7` (not a power of
two): initialization fails and the Uninitialized state persists. -/
theorem C3_config_rejected_witness :
    initPipeline ⟨7, 10, 5, 1, 1⟩ PipelineState.uninit =
      (PipelineState.uninit, some "configuration error") :=
  C3_config_rejected ⟨7, 10, 5, 1, 1⟩ PipelineState.uninit (Or.inl (by decide))

/-! ## C4 — determinism and reproducibility -/

/-- C4: evaluating the frequency-domain field twice at the same time with
the same spectrum gives identical buffers, re-running seeded
initialization reproduces the same sea state, and the sequentially
threaded generator state is a pure function of the seed and the draw
index (so Gaussian pairs are reproducible per cell index). -/
theorem C4_determinism :
    (∀ (p : OceanParams) (gauss : ℤ → ℤ → ℝ × ℝ) (t : ℝ) (i j : Fin p.gridSize),
       evolveGrid p gauss t i j = evolveGrid p gauss t i j) ∧
    (∀ (p : OceanParams) (seed : ℕ), initSeeded p seed = initSeeded p seed) ∧
    (∀ seed i : ℕ, seqStates seed i = rngStep^[i] seed) := by
  refine ⟨fun _ _ _ _ _ => rfl, fun _ _ => rfl, fun seed i => ?_⟩
  induction i with
  | zero => rfl
  | succ n ih => rw [seqStates, ih, Function.iterate_succ_apply']

/-! ## C7 — the post-processor never emits non-finite values -/

/-- C7: every channel the post-processor writes is an ordinary number in
the clamping range `[lo, hi]` — also when the incoming FFT samples are
infinite or NaN — and a finite in-range height sample passes through
unchanged. -/
theorem C7_postprocessor_clamps (lo hi lam : ℚ) (hgt dx dz sx sz : FVal)
    (hlh : lo ≤ hi) :
    (lo ≤ (displacementTexel lo hi lam hgt dx dz).1 ∧
       (displacementTexel lo hi lam hgt dx dz).1 ≤ hi) ∧
    (lo ≤ (displacementTexel lo hi lam hgt dx dz).2.1 ∧
       (displacementTexel lo hi lam hgt dx dz).2.1 ≤ hi) ∧
    (lo ≤ (displacementTexel lo hi lam hgt dx dz).2.2 ∧
       (displacementTexel lo hi lam hgt dx dz).2.2 ≤ hi) ∧
    (lo ≤ (normalTexel lo hi sx sz).1 ∧ (normalTexel lo hi sx sz).1 ≤ hi) ∧
    (lo ≤ (normalTexel lo hi sx sz).2.1 ∧ (normalTexel lo hi sx sz).2.1 ≤ hi) ∧
    (lo ≤ (normalTexel lo hi sx sz).2.2 ∧ (normalTexel lo hi sx sz).2.2 ≤ hi) ∧
    (∀ x : ℚ, hgt = FVal.fin x → lo ≤ x → x ≤ hi →
       (displacementTexel lo hi lam hgt dx dz).2.1 = x) := by
  refine ⟨sanitize_bounds lo hi hlh _, sanitize_bounds lo hi hlh _,
    sanitize_bounds lo hi hlh _, sanitize_bounds lo hi hlh _,
    sanitize_bounds lo hi hlh _, sanitize_bounds lo hi hlh _, ?_⟩
  intro x hx h1 h2
  rw [displacementTexel]
  simp only [hx]
  exact sanitize_fin_of_mem lo hi x h1 h2

/-- Witness for C7: an injected `+∞` horizontal-displacement sample and a
NaN height still produce channels inside `[-100, 100]`. -/
theorem C7_postprocessor_clamps_witness :
    ((-100 : ℚ) ≤ (displacementTexel (-100) 100 2 FVal.nan FVal.pinf (FVal.fin 7)).1 ∧
       (displacementTexel (-100) 100 2 FVal.nan FVal.pinf (FVal.fin 7)).1 ≤ 100) ∧
    ((-100 : ℚ) ≤ (displacementTexel (-100) 100 2 FVal.nan FVal.pinf (FVal.fin 7)).2.1 ∧
       (displacementTexel (-100) 100 2 FVal.nan FVal.pinf (FVal.fin 7)).2.1 ≤ 100) :=
  ⟨(C7_postprocessor_clamps (-100) 100 2 FVal.nan FVal.pinf (FVal.fin 7) FVal.ninf
      (FVal.fin 0) (by norm_num)).1,
   (C7_postprocessor_clamps (-100) 100 2 FVal.nan FVal.pinf (FVal.fin 7) FVal.ninf
      (FVal.fin 0) (by norm_num)).2.1⟩

/-! ## C9 — nothing happens before the font system is ready -/

/-- C9: while `isReady` is false, `updateTime` is the identity on the
clock state (no meshes created or disposed, time string and update
timestamp unchanged), `createTextMesh` returns null without effect,
mesh creation can only ever succeed in a state where the font system has
been fully installed, and a failed font initialization changes nothing. -/
theorem C9_not_ready_no_effect (s : ClockState) (now : ℤ) (hours minutes : ℕ)
    (c : Char) (h : s.isReady = false) :
    updateTime now hours minutes s = s ∧
    createTextMesh c s = (none, s) ∧
    (∀ (s2 : ClockState) (d : DigitMesh) (s3 : ClockState),
       createTextMesh c s2 = (some d, s3) →
       s2.isReady = true ∧ s2.font = true ∧ s2.textBuilder = true) ∧
    (∀ (now2 : ℤ) (h2 m2 : ℕ), initFontStep false now2 h2 m2 s = s) := by
  refine ⟨by simp [updateTime, h], by simp [createTextMesh, h], ?_, by
    intro now2 h2 m2; simp [initFontStep]⟩
  intro s2 d s3 hc
  by_cases hg : (s2.textBuilder && s2.font && s2.isReady) = true
  · rw [Bool.and_eq_true, Bool.and_eq_true] at hg
    exact ⟨hg.2, hg.1.2, hg.1.1⟩
  · rw [createTextMesh, if_neg hg] at hc
    simp at hc

/-- Witness for C9 at the freshly constructed clock state. -/
theorem C9_not_ready_no_effect_witness :
    updateTime 5000 12 34 clockInitState = clockInitState ∧
    createTextMesh ':' clockInitState = (none, clockInitState) :=
  ⟨(C9_not_ready_no_effect clockInitState 5000 12 34 ':' rfl).1,
   (C9_not_ready_no_effect clockInitState 5000 12 34 ':' rfl).2.1⟩

/-! ## C10 — material constructor defaults -/

/-- C10: the constructor uses `metallic = 1` and `roughness = 1/2` exactly
when the corresponding config field is undefined (a provided value — even
0 — is kept), while the texture UV scale falls back to 1 for any falsy
`textureScale`, in particular for an explicit 0. -/
theorem C10_material_defaults (config : MaterialConfig) :
    (config.metallic = none → (mkClockMaterial config).metallic = 1) ∧
    (∀ x : ℚ, config.metallic = some x → (mkClockMaterial config).metallic = x) ∧
    (config.roughness = none → (mkClockMaterial config).roughness = 1/2) ∧
    (∀ x : ℚ, config.roughness = some x → (mkClockMaterial config).roughness = x) ∧
    ((config.textureScale = none ∨ config.textureScale = some 0) →
       (mkClockMaterial config).baseUScale = 1 ∧ (mkClockMaterial config).baseVScale = 1) ∧
    (∀ x : ℚ, config.textureScale = some x → x ≠ 0 →
       (mkClockMaterial config).baseUScale = x ∧ (mkClockMaterial config).baseVScale = x) := by
  refine ⟨?_, ?_, ?_, ?_, ?_, ?_⟩
  · intro h; simp [mkClockMaterial, h]
  · intro x h; simp [mkClockMaterial, h]
  · intro h; simp [mkClockMaterial, h]
  · intro x h; simp [mkClockMaterial, h]
  · rintro (h | h) <;> simp [mkClockMaterial, jsOrDefault, h]
  · intro x h hx; simp [mkClockMaterial, jsOrDefault, h, hx]

/-- Witness for C10: undefined metallic becomes 1, provided roughness 3/10
is kept, and the explicit texture scale 0 is replaced by 1. -/
theorem C10_material_defaults_witness :
    (mkClockMaterial cfgEx).metallic = 1 ∧
    (mkClockMaterial cfgEx).roughness = 3/10 ∧
    (mkClockMaterial cfgEx).baseUScale = 1 :=
  ⟨(C10_material_defaults cfgEx).1 rfl,
   (C10_material_defaults cfgEx).2.2.2.1 (3/10) rfl,
   ((C10_material_defaults cfgEx).2.2.2.2.1 (Or.inr rfl)).1⟩

/-! ## C2 — spectrum initialization: helper lemmas -/

/-- The `k = 0` cell of the base spectrum is exactly zero. -/
theorem h0_zero_cell (p : OceanParams) (gauss : ℤ → ℤ → ℝ × ℝ)
    (hε : 0 < p.kEpsilon) : h0 p gauss 0 0 = 0 := by
  have hk : kMag p 0 0 = 0 := by
    simp [kMag, kCoord]
  have hc : kMag p 0 0 < p.kEpsilon := by rw [hk]; exact hε
  have hp : phillips p 0 0 = 0 := by rw [phillips, if_pos hc]
  simp [h0, hp]

/-- The guarded Phillips spectrum is bounded by `A / ε⁴` for a unit wind
direction: the epsilon guard keeps the `1/k⁴` factor below `1/ε⁴`, the
exponential factor is at most one, and the alignment factor is at most
one by Cauchy–Schwarz. -/
theorem phillips_le (p : OceanParams) (n m : ℤ) (hε : 0 < p.kEpsilon)
    (hA : 0 ≤ p.amplitude) (hw : p.windX ^ 2 + p.windZ ^ 2 = 1) :
    phillips p n m ≤ p.amplitude / p.kEpsilon ^ 4 := by
  rw [phillips]
  split
  · positivity
  · rename_i hcond
    have hk : p.kEpsilon ≤ kMag p n m := not_lt.mp hcond
    have hkpos : 0 < kMag p n m := lt_of_lt_of_le hε hk
    have hexp : Real.exp (-1 / (kMag p n m * windScale p) ^ 2) ≤ 1 := by
      have hden : (0 : ℝ) ≤ (kMag p n m * windScale p) ^ 2 := sq_nonneg _
      have hng : -1 / (kMag p n m * windScale p) ^ 2 ≤ 0 := by
        rw [neg_div]
        exact neg_nonpos.mpr (div_nonneg zero_le_one hden)
      calc Real.exp (-1 / (kMag p n m * windScale p) ^ 2)
          ≤ Real.exp 0 := Real.exp_le_exp.mpr hng
        _ = 1 := Real.exp_zero
    have hq : ((kCoord p n * p.windX + kCoord p m * p.windZ) / kMag p n m) ^ 2 ≤ 1 := by
      rw [div_pow, div_le_one (by positivity)]
      have hks : kMag p n m ^ 2 = kCoord p n ^ 2 + kCoord p m ^ 2 :=
        Real.sq_sqrt (by positivity)
      nlinarith [sq_nonneg (kCoord p n * p.windZ - kCoord p m * p.windX), hw, hks]
    calc p.amplitude * Real.exp (-1 / (kMag p n m * windScale p) ^ 2) / kMag p n m ^ 4 *
          ((kCoord p n * p.windX + kCoord p m * p.windZ) / kMag p n m) ^ 2
        ≤ p.amplitude * 1 / kMag p n m ^ 4 * 1 := by
          gcongr
      _ = p.amplitude / kMag p n m ^ 4 := by ring
      _ ≤ p.amplitude / p.kEpsilon ^ 4 := by
          gcongr

/-- Bound on a base-spectrum amplitude from a bound on the Gaussian
draws. -/
theorem h0_abs_le (p : OceanParams) (gauss : ℤ → ℤ → ℝ × ℝ) (B : ℝ) (n m : ℤ)
    (hε : 0 < p.kEpsilon) (hA : 0 ≤ p.amplitude)
    (hw : p.windX ^ 2 + p.windZ ^ 2 = 1)
    (hB : ∀ a b : ℤ, |(gauss a b).1| ≤ B ∧ |(gauss a b).2| ≤ B) :
    Complex.abs (h0 p gauss n m) ≤
      2 * B * Real.sqrt (p.amplitude / (2 * p.kEpsilon ^ 4)) := by
  have hBnn : 0 ≤ B := le_trans (abs_nonneg _) (hB 0 0).1
  have hz : Complex.abs (((gauss n m).1 : ℂ) + ((gauss n m).2 : ℂ) * Complex.I) ≤ 2 * B := by
    calc Complex.abs (((gauss n m).1 : ℂ) + ((gauss n m).2 : ℂ) * Complex.I)
        ≤ Complex.abs ((gauss n m).1 : ℂ) + Complex.abs (((gauss n m).2 : ℂ) * Complex.I) :=
          Complex.abs.add_le _ _
      _ = |(gauss n m).1| + |(gauss n m).2| := by
          rw [map_mul, Complex.abs_ofReal, Complex.abs_ofReal, Complex.abs_I, mul_one]
      _ ≤ 2 * B := by
          have h1 := (hB n m).1
          have h2 := (hB n m).2
          linarith
  have hsq : Real.sqrt (phillips p n m / 2) ≤
      Real.sqrt (p.amplitude / (2 * p.kEpsilon ^ 4)) := by
    apply Real.sqrt_le_sqrt
    have hple := phillips_le p n m hε hA hw
    have h2 : p.amplitude / (2 * p.kEpsilon ^ 4) = p.amplitude / p.kEpsilon ^ 4 / 2 := by
      ring
    rw [h2]
    linarith
  rw [h0, map_mul, Complex.abs_ofReal,
    abs_of_nonneg (Real.sqrt_nonneg (phillips p n m / 2))]
  exact mul_le_mul hz hsq (Real.sqrt_nonneg _) (by linarith)

/-! ## C2 — spectrum initialization -/

/-- C2: for a valid grid size (a power of two between 16 and 1024) and
valid parameters, spectrum initialization yields a total N×N buffer whose
`k = (0,0)` cell is exactly `0 + 0i` and all of whose values are bounded
(no division blow-up from the `1/k⁴` factor), the bound depending only on
the Gaussian bound, the amplitude scale and the epsilon guard. -/
theorem C2_spectrum_init (p : OceanParams) (gauss : ℤ → ℤ → ℝ × ℝ) (B : ℝ)
    (hN1 : 16 ≤ p.gridSize) (hN2 : p.gridSize ≤ 1024)
    (hpow : isPowTwo p.gridSize = true)
    (hε : 0 < p.kEpsilon) (hA : 0 ≤ p.amplitude)
    (hw : p.windX ^ 2 + p.windZ ^ 2 = 1)
    (hB : ∀ a b : ℤ, |(gauss a b).1| ≤ B ∧ |(gauss a b).2| ≤ B) :
    initSpectrum p gauss ⟨0, by omega⟩ ⟨0, by omega⟩ = 0 ∧
    ∀ i j : Fin p.gridSize,
      Complex.abs (initSpectrum p gauss i j) ≤
        2 * B * Real.sqrt (p.amplitude / (2 * p.kEpsilon ^ 4)) := by
  constructor
  · simpa [initSpectrum] using h0_zero_cell p gauss hε
  · intro i j
    simpa [initSpectrum] using h0_abs_le p gauss B (i : ℤ) (j : ℤ) hε hA hw hB

/-- Witness for C2 at the concrete parameter set `oceanPEx` (N = 16): the
`(0,0)` cell vanishes and the `(1,0)` cell obeys the finiteness bound. -/
theorem C2_spectrum_init_witness :
    initSpectrum oceanPEx gaussOne ⟨0, by decide⟩ ⟨0, by decide⟩ = 0 ∧
    Complex.abs (initSpectrum oceanPEx gaussOne ⟨1, by decide⟩ ⟨0, by decide⟩) ≤
      2 * 1 * Real.sqrt (oceanPEx.amplitude / (2 * oceanPEx.kEpsilon ^ 4)) :=
  ⟨(C2_spectrum_init oceanPEx gaussOne 1 (by decide) (by decide) (by decide)
      (by norm_num [oceanPEx]) (by norm_num [oceanPEx]) (by norm_num [oceanPEx])
      (by intro a b; norm_num [gaussOne])).1,
   (C2_spectrum_init oceanPEx gaussOne 1 (by decide) (by decide) (by decide)
      (by norm_num [oceanPEx]) (by norm_num [oceanPEx]) (by norm_num [oceanPEx])
      (by intro a b; norm_num [gaussOne])).2 ⟨1, by decide⟩ ⟨0, by decide⟩⟩

/-! ## C6 — FFT engine structure: helper lemmas -/

/-- Row passes act row-locally: running the lifted dispatches on a buffer
and then reading row `n` is running the 1D passes on row `n`. -/
theorem applyList_rowStages (k : ℕ) (M : Mat) (n : ℕ) :
    applyList (rowStages k) M n = applyList (stageList k) (M n) := by
  rw [rowStages]
  generalize stageList k = l
  induction l generalizing M with
  | nil => rfl
  | cons f l ih =>
      show applyList (l.map liftRow) (liftRow f M) n = applyList l (f (M n))
      rw [ih]
      rfl

/-- Column passes act column-locally. -/
theorem applyList_colStages (k : ℕ) (M : Mat) (n m : ℕ) :
    applyList (colStages k) M n m = applyList (stageList k) (fun r => M r m) n := by
  rw [colStages]
  generalize stageList k = l
  induction l generalizing M with
  | nil => rfl
  | cons f l ih =>
      show applyList (l.map liftCol) (liftCol f M) n m = applyList l (f fun r => M r m) n
      rw [ih]
      rfl

/-- Base-two logarithm of a power of two. -/
theorem log2_two_pow (k : ℕ) : Nat.log2 (2 ^ k) = k := by
  rw [Nat.log2_eq_log_two]
  exact Nat.log_pow (by norm_num) k

/-! ## C6 — FFT engine structure -/

/-- Separability of the modelled 2D engine: it is the per-row 1D butterfly
network followed by the per-column 1D network, with the sign-alternation
correction on every output cell. -/
theorem ifft2D_separable (k : ℕ) (M : Mat) (n m : ℕ) :
    ifft2D k M n m =
      (-1 : ℂ) ^ (n + m) * ifft1D k (fun r => ifft1D k (M r) m) n := by
  show (-1 : ℂ) ^ (n + m) *
      applyList (colStages k)
        (fun a b =>
          applyList (rowStages k) (fun c d => M c (bitRev k d)) (bitRev k a) b) n m =
      (-1 : ℂ) ^ (n + m) * ifft1D k (fun r => ifft1D k (M r) m) n
  rw [applyList_colStages]
  rw [show (fun r =>
        applyList (rowStages k) (fun c d => M c (bitRev k d)) (bitRev k r) m) =
      (fun i => ifft1D k (M (bitRev k i)) m) from
    funext fun r =>
      congrFun (applyList_rowStages k (fun c d => M c (bitRev k d)) (bitRev k r)) m]
  rfl

/-! ## C8 — frame effect of updateTime -/

/-- C8: under the class invariant that the displayed string is empty until
the font system is ready (the string is only ever assigned after the ready
guard), a call to `updateTime` (i) changes nothing when less than 1000 ms
have passed since the last accepted update, (ii) touches the digit meshes
only when the call is accepted and the freshly formatted `HH:MM` string
differs from the displayed one, (iii) on an accepted call whose formatted
string equals the displayed one, changes exactly the `lastUpdateTime`
timestamp, and (iv) on an accepted ready call whose formatted string
differs, disposes every previously present digit mesh and recreates all
five slots with freshly numbered meshes for the new characters. -/
theorem C8_updateTime_frame_effect (s : ClockState) (now : ℤ) (hours minutes : ℕ)
    (hInv : s.isReady = false → s.currentTimeString = "") :
    (now - s.lastUpdateTime < 1000 → updateTime now hours minutes s = s) ∧
    ((updateTime now hours minutes s).digitMeshes ≠ s.digitMeshes →
       1000 ≤ now - s.lastUpdateTime ∧ fmtTime hours minutes ≠ s.currentTimeString) ∧
    (1000 ≤ now - s.lastUpdateTime → fmtTime hours minutes = s.currentTimeString →
       updateTime now hours minutes s = { s with lastUpdateTime := now }) ∧
    (∀ d0 d1 d2 d3 d4 : Option DigitMesh,
       s.isReady = true → s.font = true → s.textBuilder = true →
       1000 ≤ now - s.lastUpdateTime →
       fmtTime hours minutes ≠ s.currentTimeString →
       s.digitMeshes = [d0, d1, d2, d3, d4] →
       updateTime now hours minutes s =
         { s with
           currentTimeString := fmtTime hours minutes
           lastUpdateTime := now
           digitMeshes :=
             [some ⟨charAt (padTwo hours) 0, s.nextMeshId⟩,
              some ⟨charAt (padTwo hours) 1, s.nextMeshId + 1⟩,
              some ⟨':', s.nextMeshId + 2⟩,
              some ⟨charAt (padTwo minutes) 0, s.nextMeshId + 3⟩,
              some ⟨charAt (padTwo minutes) 1, s.nextMeshId + 4⟩]
           nextMeshId := s.nextMeshId + 5
           disposed :=
             ([d0, d1, d2, d3, d4].filterMap (fun o => o.map DigitMesh.id)).reverse ++
               s.disposed }) := by
  cases hb : s.isReady with
  | false =>
      have hu : updateTime now hours minutes s = s := by simp [updateTime, hb]
      refine ⟨fun _ => hu, fun hne => absurd (by rw [hu]) hne, fun _ heq => ?_, ?_⟩
      · exact absurd (heq.trans (hInv hb)) (fmtTime_ne_empty hours minutes)
      · intro d0 d1 d2 d3 d4 hr
        exact absurd hr (by decide)
  | true =>
      by_cases ht : now - s.lastUpdateTime < 1000
      · have hu : updateTime now hours minutes s = s := by simp [updateTime, hb, ht]
        refine ⟨fun _ => hu, fun hne => absurd (by rw [hu]) hne,
          fun h1 _ => absurd ht (by omega), ?_⟩
        intro d0 d1 d2 d3 d4 _ _ _ ht2 _ _
        exact absurd ht (by omega)
      · by_cases hstr : padTwo hours ++ ":" ++ padTwo minutes = s.currentTimeString
        · have hu : updateTime now hours minutes s = { s with lastUpdateTime := now } := by
            simp [updateTime, hb, ht, hstr]
          refine ⟨fun h1 => absurd h1 ht, fun hne => absurd (by rw [hu]) hne,
            fun _ _ => by rw [hu, hb], ?_⟩
          intro d0 d1 d2 d3 d4 _ _ _ _ hstr2 _
          exact absurd hstr hstr2
        · refine ⟨fun h1 => absurd h1 ht, fun _ => ⟨by omega, hstr⟩,
            fun _ heq => absurd heq hstr, ?_⟩
          intro d0 d1 d2 d3 d4 _ hf htb _ _ hdm
          rcases d0 with _ | m0 <;> rcases d1 with _ | m1 <;> rcases d2 with _ | m2 <;>
            rcases d3 with _ | m3 <;> rcases d4 with _ | m4 <;>
            simp [updateTime, updateDigitMesh, createTextMesh, fmtTime, hb, hf, htb,
              ht, hstr, hdm]

/-- Witness for C8: an accepted call (2000 ms elapsed) at 12:34 while
already displaying 12:34 changes only the `lastUpdateTime` field. -/
theorem C8_updateTime_frame_effect_witness :
    updateTime 2000 12 34 clockReadyEx = { clockReadyEx with lastUpdateTime := 2000 } :=
  (C8_updateTime_frame_effect clockReadyEx 2000 12 34 (by decide)).2.2.1
    (by decide) (by decide)

/-! ## C5 — per-cell magnitude under time evolution -/

/-- A quarter-turn phase factor. -/
theorem exp_I_mul_pi_div_two :
    Complex.exp (Complex.I * ((Real.pi / 2 : ℝ) : ℂ)) = Complex.I := by
  rw [mul_comm, Complex.exp_mul_I]
  rw [← Complex.ofReal_cos, ← Complex.ofReal_sin, Real.cos_pi_div_two, Real.sin_pi_div_two]
  simp

/-- The opposite quarter-turn phase factor. -/
theorem exp_neg_I_mul_pi_div_two :
    Complex.exp (-(Complex.I * ((Real.pi / 2 : ℝ) : ℂ))) = -Complex.I := by
  have h : -(Complex.I * ((Real.pi / 2 : ℝ) : ℂ)) = ((-(Real.pi / 2) : ℝ) : ℂ) * Complex.I := by
    push_cast
    ring
  rw [h, Complex.exp_mul_I]
  rw [← Complex.ofReal_cos, ← Complex.ofReal_sin, Real.cos_neg, Real.sin_neg,
    Real.cos_pi_div_two, Real.sin_pi_div_two]
  simp

/-- C5 counterexample: at the concrete parameters `oceanPEx` with the
constant draw `(1,0)`, cell `(1,0)` of the frequency-domain height buffer
has magnitude `2·sqrt(P/2) > 0` at `t = 0` but magnitude `0` at
`t = tStarEx` (a quarter period): the sum of the two conjugate terms does
not conserve the per-cell magnitude. -/
theorem C5_magnitude_not_conserved :
    ¬ (Complex.abs (evolveGrid oceanPEx gaussOne tStarEx ⟨1, by decide⟩ ⟨0, by decide⟩) =
       Complex.abs (evolveGrid oceanPEx gaussOne 0 ⟨1, by decide⟩ ⟨0, by decide⟩)) := by
  have hπ : (0 : ℝ) < Real.pi := Real.pi_pos
  have hπ3 : (3 : ℝ) < Real.pi := Real.pi_gt_three
  have hc1 : kCoord oceanPEx 1 = Real.pi / 5 := by
    simp [kCoord, oceanPEx]
    ring
  have hc0 : kCoord oceanPEx 0 = 0 := by
    simp [kCoord]
  have hcm1 : kCoord oceanPEx (-1) = -(Real.pi / 5) := by
    simp [kCoord, oceanPEx]
    ring
  have hk : kMag oceanPEx 1 0 = Real.pi / 5 := by
    rw [kMag, hc1, hc0]
    rw [show ((0 : ℝ) ^ 2) = 0 by ring, add_zero]
    exact Real.sqrt_sq (by positivity)
  have hkm : kMag oceanPEx (-1) 0 = Real.pi / 5 := by
    rw [kMag, hcm1, hc0]
    rw [show ((0 : ℝ) ^ 2) = 0 by ring, add_zero, neg_sq]
    exact Real.sqrt_sq (by positivity)
  have hkε : oceanPEx.kEpsilon = 1 / 1000 := by norm_num [oceanPEx]
  have hcond : ¬ (kMag oceanPEx 1 0 < oceanPEx.kEpsilon) := by
    rw [hk, not_lt, hkε]
    linarith
  have hcondm : ¬ (kMag oceanPEx (-1) 0 < oceanPEx.kEpsilon) := by
    rw [hkm, not_lt, hkε]
    linarith
  have hP : 0 < phillips oceanPEx 1 0 := by
    rw [phillips, if_neg hcond, hk, hc1, hc0]
    have hA : oceanPEx.amplitude = 1 := by norm_num [oceanPEx]
    have hwx : oceanPEx.windX = 1 := by norm_num [oceanPEx]
    have hwz : oceanPEx.windZ = 0 := by norm_num [oceanPEx]
    rw [hA, hwx, hwz]
    have hdot : (Real.pi / 5 * 1 + 0 * 0) / (Real.pi / 5) = 1 := by
      field_simp
    rw [hdot]
    positivity
  have hPm : phillips oceanPEx (-1) 0 = phillips oceanPEx 1 0 := by
    rw [phillips, phillips, if_neg hcond, if_neg hcondm, hk, hkm, hc1, hcm1, hc0]
    ring
  have h0eq : ∀ a b : ℤ, h0 oceanPEx gaussOne a b =
      ((Real.sqrt (phillips oceanPEx a b / 2) : ℝ) : ℂ) := by
    intro a b
    simp [h0, gaussOne]
  have hsp : 0 < Real.sqrt (phillips oceanPEx 1 0 / 2) :=
    Real.sqrt_pos.mpr (by positivity)
  have hωpos : 0 < dispersion oceanPEx 1 0 := by
    rw [dispersion, hk]
    apply Real.sqrt_pos.mpr
    positivity
  have hωt : dispersion oceanPEx 1 0 * tStarEx = Real.pi / 2 := by
    rw [tStarEx]
    have hne : dispersion oceanPEx 1 0 ≠ 0 := ne_of_gt hωpos
    field_simp
    ring
  have hET : evolveGrid oceanPEx gaussOne tStarEx ⟨1, by decide⟩ ⟨0, by decide⟩ = 0 := by
    show evolveCell oceanPEx gaussOne tStarEx 1 0 = 0
    rw [evolveCell]
    simp only [neg_zero]
    rw [h0eq, h0eq, hPm, Complex.conj_ofReal, hωt, exp_I_mul_pi_div_two,
      exp_neg_I_mul_pi_div_two]
    ring
  have hE0 : evolveGrid oceanPEx gaussOne 0 ⟨1, by decide⟩ ⟨0, by decide⟩ =
      ((2 * Real.sqrt (phillips oceanPEx 1 0 / 2) : ℝ) : ℂ) := by
    show evolveCell oceanPEx gaussOne 0 1 0 = _
    rw [evolveCell]
    simp only [neg_zero, mul_zero, Complex.ofReal_zero, Complex.exp_zero, mul_one]
    rw [h0eq, h0eq, hPm, Complex.conj_ofReal]
    push_cast
    ring
  intro heq
  rw [hET, hE0, map_zero, Complex.abs_ofReal] at heq
  rw [abs_of_pos (by linarith)] at heq
  linarith

/-- C5 amended: time evolution rotates each conjugate component by a pure
phase, so the magnitude of each component of every cell is conserved for
all times (the magnitude of their sum is what varies). -/
theorem C5_component_rotation (p : OceanParams) (gauss : ℤ → ℤ → ℝ × ℝ) (t : ℝ)
    (n m : ℤ) :
    Complex.abs (h0 p gauss n m *
        Complex.exp (Complex.I * ((dispersion p n m * t : ℝ) : ℂ))) =
      Complex.abs (h0 p gauss n m) ∧
    Complex.abs ((starRingEnd ℂ) (h0 p gauss (-n) (-m)) *
        Complex.exp (-(Complex.I * ((dispersion p n m * t : ℝ) : ℂ)))) =
      Complex.abs (h0 p gauss (-n) (-m)) := by
  constructor
  · rw [map_mul]
    have h1 : Complex.abs (Complex.exp (Complex.I * ((dispersion p n m * t : ℝ) : ℂ))) = 1 := by
      rw [Complex.abs_exp]
      simp
    rw [h1, mul_one]
  · rw [map_mul]
    have h1 : Complex.abs
        (Complex.exp (-(Complex.I * ((dispersion p n m * t : ℝ) : ℂ)))) = 1 := by
      rw [Complex.abs_exp]
      simp
    rw [h1, mul_one, Complex.abs_conj]

/-! ## C6 upgrade — the butterfly network computes the inverse DFT -/

/-- Splitting a power of two into two half-blocks. -/
theorem two_pow_pred_add (s : ℕ) (hs : 1 ≤ s) : 2 ^ (s - 1) + 2 ^ (s - 1) = 2 ^ s := by
  obtain ⟨s2, rfl⟩ : ∃ s2, s = s2 + 1 := ⟨s - 1, by omega⟩
  rw [Nat.add_sub_cancel, pow_succ]
  omega

/-- Appending one dispatch to a dispatch sequence. -/
theorem applyList_concat {α : Type} (l : List (α → α)) (f : α → α) (x : α) :
    applyList (l ++ [f]) x = f (applyList l x) := by
  simp [applyList, List.foldl_append]

/-- The stage sequence grows by one final butterfly pass. -/
theorem stageList_succ (k : ℕ) :
    stageList (k + 1) = stageList k ++ [butterflyPass (k + 1)] := by
  rw [stageList, stageList, List.range_succ, List.map_append]
  rfl

/-- The stage sequence as a map over stage numbers `1, …, k`. -/
theorem stageList_eq_map (k : ℕ) :
    stageList k = ((List.range k).map (fun j => j + 1)).map butterflyPass := by
  rw [stageList, List.map_map]
  rfl

/-- A butterfly pass at stage `s ≤ k` reads, below `2^k`, only samples
below `2^k`. -/
theorem butterflyPass_lower (k s : ℕ) (hs1 : 1 ≤ s) (hsk : s ≤ k) (y z : ℕ → ℂ)
    (hag : ∀ t, t < 2 ^ k → y t = z t) (i : ℕ) (hi : i < 2 ^ k) :
    butterflyPass s y i = butterflyPass s z i := by
  have hsplit : 2 ^ s * (i / 2 ^ s) + i % 2 ^ s = i := Nat.div_add_mod i (2 ^ s)
  have hhalf : 2 ^ (s - 1) + 2 ^ (s - 1) = 2 ^ s := two_pow_pred_add s hs1
  have h4 : 2 ^ s * 2 ^ (k - s) = 2 ^ k := by
    rw [← pow_add]
    congr 1
    omega
  by_cases hpos : i % 2 ^ s < 2 ^ (s - 1)
  · have hq : i / 2 ^ s < 2 ^ (k - s) := by
      apply Nat.div_lt_of_lt_mul
      omega
    have hbound : 2 ^ s * (i / 2 ^ s) + 2 ^ s ≤ 2 ^ k := by
      have h3 : 2 ^ s * (i / 2 ^ s + 1) ≤ 2 ^ s * 2 ^ (k - s) :=
        Nat.mul_le_mul_left (2 ^ s) hq
      calc 2 ^ s * (i / 2 ^ s) + 2 ^ s = 2 ^ s * (i / 2 ^ s + 1) := by ring
        _ ≤ 2 ^ s * 2 ^ (k - s) := h3
        _ = 2 ^ k := h4
    have hkey : i + 2 ^ (s - 1) < 2 ^ k := by omega
    simp only [butterflyPass]
    rw [if_pos hpos, if_pos hpos, hag i hi, hag (i + 2 ^ (s - 1)) hkey]
  · have h1 : i - 2 ^ (s - 1) < 2 ^ k := by omega
    simp only [butterflyPass]
    rw [if_neg hpos, if_neg hpos, hag i hi, hag (i - 2 ^ (s - 1)) h1]

/-- A butterfly pass at stage `s ≤ k` commutes with shifting the buffer by
the aligned offset `2^k`. -/
theorem butterflyPass_shift (k s : ℕ) (hs1 : 1 ≤ s) (hsk : s ≤ k) (y : ℕ → ℂ) (i : ℕ) :
    butterflyPass s y (2 ^ k + i) = butterflyPass s (fun t => y (2 ^ k + t)) i := by
  have h4 : 2 ^ s * 2 ^ (k - s) = 2 ^ k := by
    rw [← pow_add]
    congr 1
    omega
  have hmod : (2 ^ k + i) % 2 ^ s = i % 2 ^ s := by
    rw [← h4, Nat.mul_add_mod]
  simp only [butterflyPass]
  rw [hmod]
  by_cases hpos : i % 2 ^ s < 2 ^ (s - 1)
  · rw [if_pos hpos, if_pos hpos, add_assoc]
  · rw [if_neg hpos, if_neg hpos]
    have hle : 2 ^ (s - 1) ≤ i := le_trans (not_lt.mp hpos) (Nat.mod_le i _)
    rw [Nat.add_sub_assoc hle]

/-- Below `2^k`, a sequence of passes with stages in `[1, k]` only
depends on the buffer below `2^k`. -/
theorem applyList_passes_agree (k : ℕ) (l : List ℕ) :
    ∀ (y z : ℕ → ℂ) (i : ℕ),
      (∀ s ∈ l, 1 ≤ s ∧ s ≤ k) →
      (∀ t, t < 2 ^ k → y t = z t) → i < 2 ^ k →
      applyList (l.map butterflyPass) y i = applyList (l.map butterflyPass) z i := by
  induction l with
  | nil =>
      intro y z i _ hag hi
      exact hag i hi
  | cons s l ih =>
      intro y z i hl hag hi
      show applyList (l.map butterflyPass) (butterflyPass s y) i =
        applyList (l.map butterflyPass) (butterflyPass s z) i
      have hs := hl s (List.mem_cons_self s l)
      refine ih (butterflyPass s y) (butterflyPass s z) i
        (fun s2 hs2 => hl s2 (List.mem_cons_of_mem s hs2)) ?_ hi
      intro t ht
      exact butterflyPass_lower k s hs.1 hs.2 y z hag t ht

/-- A sequence of passes with stages in `[1, k]` commutes with shifting
the buffer by `2^k`. -/
theorem applyList_passes_shift (k : ℕ) (l : List ℕ) :
    ∀ (y : ℕ → ℂ) (i : ℕ), (∀ s ∈ l, 1 ≤ s ∧ s ≤ k) →
      applyList (l.map butterflyPass) y (2 ^ k + i) =
        applyList (l.map butterflyPass) (fun t => y (2 ^ k + t)) i := by
  induction l with
  | nil =>
      intro y i _
      rfl
  | cons s l ih =>
      intro y i hl
      show applyList (l.map butterflyPass) (butterflyPass s y) (2 ^ k + i) =
        applyList (l.map butterflyPass) (butterflyPass s fun t => y (2 ^ k + t)) i
      have hs := hl s (List.mem_cons_self s l)
      have hstep : (fun t => butterflyPass s y (2 ^ k + t)) =
          butterflyPass s (fun t => y (2 ^ k + t)) :=
        funext fun t => butterflyPass_shift k s hs.1 hs.2 y t
      rw [ih (butterflyPass s y) i (fun s2 hs2 => hl s2 (List.mem_cons_of_mem s hs2)),
        hstep]

/-- A sum over an even range split into even and odd indices. -/
theorem sum_range_even_odd (N : ℕ) (f : ℕ → ℂ) :
    ∑ n ∈ Finset.range (2 * N), f n =
      (∑ t ∈ Finset.range N, f (2 * t)) + ∑ t ∈ Finset.range N, f (2 * t + 1) := by
  induction N with
  | zero => simp
  | succ n ih =>
      have h2 : 2 * (n + 1) = 2 * n + 1 + 1 := by ring
      rw [h2, Finset.sum_range_succ, Finset.sum_range_succ, ih,
        Finset.sum_range_succ, Finset.sum_range_succ]
      ring

/-- The inverse DFT only reads the buffer below `N`. -/
theorem idft_congr (N : ℕ) (x y : ℕ → ℂ) (j : ℕ) (h : ∀ t, t < N → x t = y t) :
    idft N x j = idft N y j := by
  rw [idft, idft]
  refine Finset.sum_congr rfl fun t ht => ?_
  rw [h t (Finset.mem_range.mp ht)]

/-- The 1D butterfly network (bit-reversed input ordering followed by the
`k` butterfly passes) computes the unnormalized inverse DFT on `2^k`
points: the textbook decimation-in-time recurrence, proved by induction
on `k`. -/
theorem ifft1D_eq_idft (k : ℕ) : ∀ (x : ℕ → ℂ) (j : ℕ), j < 2 ^ k →
    ifft1D k x j = idft (2 ^ k) x j := by
  induction k with
  | zero =>
      intro x j hj
      have hj0 : j = 0 := by omega
      subst hj0
      simp [ifft1D, stageList, applyList, bitRev, idft]
  | succ k ih =>
      intro x j hj
      have hps : (2 : ℕ) ^ (k + 1) = 2 * 2 ^ k := by
        rw [pow_succ]
        ring
      have hmem : ∀ s ∈ (List.range k).map (fun j2 => j2 + 1), 1 ≤ s ∧ s ≤ k := by
        intro s hs
        simp only [List.mem_map, List.mem_range] at hs
        obtain ⟨a, ha, rfl⟩ := hs
        omega
      have h1 : ifft1D (k + 1) x j =
          butterflyPass (k + 1)
            (applyList (stageList k) (fun i => x (bitRev (k + 1) i))) j := by
        rw [ifft1D, stageList_succ, applyList_concat]
      have hFlow : ∀ i, i < 2 ^ k →
          applyList (stageList k) (fun i2 => x (bitRev (k + 1) i2)) i =
            idft (2 ^ k) (fun t => x (2 * t)) i := by
        intro i hi
        have hagree : ∀ t, t < 2 ^ k →
            (fun i2 => x (bitRev (k + 1) i2)) t = (fun i2 => x (2 * bitRev k i2)) t := by
          intro t ht
          simp only
          rw [bitRev, if_pos ht]
        calc applyList (stageList k) (fun i2 => x (bitRev (k + 1) i2)) i
            = applyList (stageList k) (fun i2 => x (2 * bitRev k i2)) i := by
              rw [stageList_eq_map]
              exact applyList_passes_agree k _ _ _ i hmem hagree hi
          _ = idft (2 ^ k) (fun t => x (2 * t)) i := ih (fun t => x (2 * t)) i hi
      have hFhigh : ∀ i, i < 2 ^ k →
          applyList (stageList k) (fun i2 => x (bitRev (k + 1) i2)) (2 ^ k + i) =
            idft (2 ^ k) (fun t => x (2 * t + 1)) i := by
        intro i hi
        rw [stageList_eq_map]
        rw [applyList_passes_shift k _ _ i hmem]
        have hagree : ∀ t, t < 2 ^ k →
            (fun t2 => (fun i2 => x (bitRev (k + 1) i2)) (2 ^ k + t2)) t =
              (fun t2 => x (2 * bitRev k t2 + 1)) t := by
          intro t ht
          simp only
          rw [bitRev, if_neg (by omega), show 2 ^ k + t - 2 ^ k = t from by omega]
        rw [applyList_passes_agree k _ _ _ i hmem hagree hi]
        rw [← stageList_eq_map]
        exact ih (fun t => x (2 * t + 1)) i hi
      rw [h1]
      simp only [butterflyPass, Nat.add_sub_cancel]
      rw [Nat.mod_eq_of_lt hj]
      have h2kc : ((2 : ℂ) ^ k) ≠ 0 := pow_ne_zero k two_ne_zero
      by_cases hjl : j < 2 ^ k
      · rw [if_pos hjl]
        rw [hFlow j hjl]
        rw [show j + 2 ^ k = 2 ^ k + j from Nat.add_comm j (2 ^ k)]
        rw [hFhigh j hjl]
        simp only [idft, twiddle]
        rw [hps, sum_range_even_odd]
        congr 1
        · refine Finset.sum_congr rfl fun t ht => ?_
          congr 1
          congr 1
          push_cast
          field_simp
          ring
        · rw [Finset.mul_sum]
          refine Finset.sum_congr rfl fun t ht => ?_
          have harg : 2 * (Real.pi : ℂ) * Complex.I * ((2 * t + 1) * j : ℕ) /
                ((2 * 2 ^ k : ℕ) : ℂ) =
              2 * (Real.pi : ℂ) * Complex.I * (j : ℂ) / ((2 * 2 ^ k : ℕ) : ℂ) +
                2 * (Real.pi : ℂ) * Complex.I * ((t * j : ℕ)) / ((2 ^ k : ℕ) : ℂ) := by
            push_cast
            field_simp
            ring
          rw [harg, Complex.exp_add]
          ring
      · rw [if_neg hjl]
        have hj2 : j - 2 ^ k < 2 ^ k := by omega
        rw [hFlow (j - 2 ^ k) hj2]
        have hFj : applyList (stageList k) (fun i2 => x (bitRev (k + 1) i2)) j =
            idft (2 ^ k) (fun t => x (2 * t + 1)) (j - 2 ^ k) := by
          have h := hFhigh (j - 2 ^ k) hj2
          rw [show 2 ^ k + (j - 2 ^ k) = j from by omega] at h
          exact h
        rw [hFj]
        simp only [idft, twiddle]
        rw [hps, sum_range_even_odd]
        have heven : (∑ t ∈ Finset.range (2 ^ k),
              x (2 * t) * Complex.exp (2 * (Real.pi : ℂ) * Complex.I * (2 * t * j : ℕ) /
                ((2 * 2 ^ k : ℕ) : ℂ))) =
            ∑ t ∈ Finset.range (2 ^ k),
              x (2 * t) * Complex.exp (2 * (Real.pi : ℂ) * Complex.I *
                ((t * (j - 2 ^ k) : ℕ)) / ((2 ^ k : ℕ) : ℂ)) := by
          refine Finset.sum_congr rfl fun t ht => ?_
          congr 1
          have hjn : 2 * t * j = 2 * t * (2 ^ k + (j - 2 ^ k)) := by
            have hjq : 2 ^ k + (j - 2 ^ k) = j := by omega
            rw [hjq]
          rw [hjn]
          have harg : 2 * (Real.pi : ℂ) * Complex.I *
                ((2 * t * (2 ^ k + (j - 2 ^ k)) : ℕ)) / ((2 * 2 ^ k : ℕ) : ℂ) =
              (t : ℂ) * (2 * (Real.pi : ℂ) * Complex.I) +
                2 * (Real.pi : ℂ) * Complex.I * ((t * (j - 2 ^ k) : ℕ)) /
                  ((2 ^ k : ℕ) : ℂ) := by
            push_cast
            field_simp
            ring
          rw [harg, Complex.exp_add, Complex.exp_nat_mul_two_pi_mul_I, one_mul]
        have hodd : (∑ t ∈ Finset.range (2 ^ k),
              x (2 * t + 1) * Complex.exp (2 * (Real.pi : ℂ) * Complex.I *
                ((2 * t + 1) * j : ℕ) / ((2 * 2 ^ k : ℕ) : ℂ))) =
            -(Complex.exp (2 * (Real.pi : ℂ) * Complex.I * ((j - 2 ^ k : ℕ) : ℂ) /
                ((2 * 2 ^ k : ℕ) : ℂ)) *
              ∑ t ∈ Finset.range (2 ^ k),
                x (2 * t + 1) * Complex.exp (2 * (Real.pi : ℂ) * Complex.I *
                  ((t * (j - 2 ^ k) : ℕ)) / ((2 ^ k : ℕ) : ℂ))) := by
          rw [Finset.mul_sum, ← Finset.sum_neg_distrib]
          refine Finset.sum_congr rfl fun t ht => ?_
          have hjn : (2 * t + 1) * j =
              2 * t * 2 ^ k + (2 * (t * (j - 2 ^ k)) + (2 ^ k + (j - 2 ^ k))) := by
            have hj3 : 2 ^ k ≤ j := by omega
            obtain ⟨c, rfl⟩ := Nat.exists_eq_add_of_le hj3
            simp only [Nat.add_sub_cancel_left]
            ring
          rw [hjn]
          have harg : 2 * (Real.pi : ℂ) * Complex.I *
                ((2 * t * 2 ^ k + (2 * (t * (j - 2 ^ k)) + (2 ^ k + (j - 2 ^ k))) : ℕ)) /
                  ((2 * 2 ^ k : ℕ) : ℂ) =
              (t : ℂ) * (2 * (Real.pi : ℂ) * Complex.I) + ((Real.pi : ℂ) * Complex.I +
                (2 * (Real.pi : ℂ) * Complex.I * ((j - 2 ^ k : ℕ) : ℂ) /
                    ((2 * 2 ^ k : ℕ) : ℂ) +
                  2 * (Real.pi : ℂ) * Complex.I * ((t * (j - 2 ^ k) : ℕ)) /
                    ((2 ^ k : ℕ) : ℂ))) := by
            push_cast
            field_simp
            ring
          rw [harg, Complex.exp_add, Complex.exp_add, Complex.exp_add,
            Complex.exp_nat_mul_two_pi_mul_I, Complex.exp_pi_mul_I, one_mul]
          ring
        rw [heven, hodd]
        ring

/-- C6: on an `N = 2^k` grid the engine issues exactly `2·log2 N`
butterfly dispatches — the `log2 N` row passes followed by the `log2 N`
column passes — and performs a full 2D inverse transform: it equals the
per-row then per-column 1D butterfly network with the `(−1)^(n+m)`
sign-alternation correction on every output cell, and the 1D network
computes the unnormalized inverse DFT, so every in-grid output cell is
the sign-corrected 2D inverse DFT of the input buffer. -/
theorem C6_fft_structure (k : ℕ) (M : Mat) (n m : ℕ) :
    (fftDispatches k).length = 2 * Nat.log2 (2 ^ k) ∧
    fftDispatches k = rowStages k ++ colStages k ∧
    (rowStages k).length = Nat.log2 (2 ^ k) ∧
    (colStages k).length = Nat.log2 (2 ^ k) ∧
    ifft2D k M n m =
      (-1 : ℂ) ^ (n + m) * ifft1D k (fun r => ifft1D k (M r) m) n ∧
    (∀ (x : ℕ → ℂ) (j : ℕ), j < 2 ^ k → ifft1D k x j = idft (2 ^ k) x j) ∧
    (n < 2 ^ k → m < 2 ^ k →
      ifft2D k M n m =
        (-1 : ℂ) ^ (n + m) * idft (2 ^ k) (fun r => idft (2 ^ k) (M r) m) n) := by
  refine ⟨?_, rfl, ?_, ?_, ifft2D_separable k M n m,
    fun x j hj => ifft1D_eq_idft k x j hj, ?_⟩
  · simp only [fftDispatches, rowStages, colStages, stageList, List.length_append,
      List.length_map, List.length_range, log2_two_pow]
    omega
  · simp only [rowStages, stageList, List.length_map, List.length_range, log2_two_pow]
  · simp only [colStages, stageList, List.length_map, List.length_range, log2_two_pow]
  · intro hn hm
    rw [ifft2D_separable k M n m]
    congr 1
    rw [ifft1D_eq_idft k _ n hn]
    exact idft_congr (2 ^ k) _ _ n fun t ht => ifft1D_eq_idft k (M t) m hm

/-- Witness for C6 at `k = 1` (a 2×2 grid) on the constant buffer: cell
`(0,0)` of the engine output equals the sign-corrected 2D inverse DFT. -/
theorem C6_fft_structure_witness :
    ifft2D 1 (fun _ _ => (1 : ℂ)) 0 0 =
      (-1 : ℂ) ^ (0 + 0) *
        idft (2 ^ 1) (fun r => idft (2 ^ 1) ((fun _ _ => (1 : ℂ)) r) 0) 0 :=
  (C6_fft_structure 1 (fun _ _ => (1 : ℂ)) 0 0).2.2.2.2.2.2 (by decide) (by decide)
